import Mathlib

/-!
Verification of the lint-diffs repository (`lint_diffs/__init__.py`).

The development shallowly embeds the program's core: the diff index built by
`read_diffs` on top of the external unidiff parser, the output classifier
`parse_output`, the runner `do_lint`, the exit-status aggregation of `main`,
and the configuration flattening `_config_to_dict`.

Python strings are modelled as Lean `String`; Python `dict`s as insertion
ordered association lists with `dictFind`/`dictPut`; machine integers do not
overflow in the source (small counters and exit codes), so `Nat`/`Int` are
used directly.  User supplied regular expressions (an external concern, the
Python `re` module) are embedded as their matching functions: a rule's
`regex` becomes a function returning the captured `file`/`line`/`err`
groups, and `always_report` becomes an optional predicate on the captured
error code (`none` models a missing or empty, hence falsy, pattern).
-/

/-! ## Python string primitives -/

/-- Python `str.split(sep)` for a one-character separator: splits on every
occurrence, keeping empty parts; the result is never empty. -/
def pySplitAux (sep : Char) : List Char → List Char → List String
  | [], acc => [String.mk acc.reverse]
  | c :: cs, acc =>
    if c = sep then String.mk acc.reverse :: pySplitAux sep cs []
    else pySplitAux sep cs (c :: acc)

/-- Python `s.split(sep)` with a single-character `sep`. -/
def pySplitOn (sep : Char) (s : String) : List String :=
  pySplitAux sep s.data []

/-- Whether `pat` is a prefix of the character list `cs`. -/
def charsBegin : List Char → List Char → Bool
  | [], _ => true
  | _ :: _, [] => false
  | p :: ps, c :: cs => p = c && charsBegin ps cs

/-- Whether string `s` starts with `pat` (anchored match of a literal). -/
def strBegins (s pat : String) : Bool :=
  charsBegin pat.data s.data

/-- Whether `needle` occurs somewhere inside `hay` (character lists). -/
def charsOccur : List Char → List Char → Bool
  | ns, [] => ns.isEmpty
  | ns, c :: cs => charsBegin ns (c :: cs) || charsOccur ns cs

/-- Python `needle in hay` on strings: substring containment. -/
def strHasSub (hay needle : String) : Bool :=
  charsOccur needle.data hay.data

/-- Drop the first `n` characters of a string. -/
def strDrop (s : String) (n : Nat) : String :=
  String.mk (s.data.drop n)

/-- ASCII lower-casing, modelling Python `str.lower` on ASCII data. -/
def lowerStr (s : String) : String :=
  String.mk (s.data.map Char.toLower)

/-- The whitespace characters stripped by Python `int()` (ASCII subset). -/
def isPySpace (c : Char) : Bool :=
  c = ' ' || c = '\t' || c = '\n' || c = '\r' || c = '\x0b' || c = '\x0c'

/-- After an initial digit, Python integer literals allow digits with single
underscores strictly between digits. -/
def digitsOk : List Char → Bool
  | [] => true
  | '_' :: c :: r => c.isDigit && digitsOk r
  | '_' :: [] => false
  | c :: r => c.isDigit && digitsOk r

/-- Magnitude of a digit-and-underscore run, `none` if ill-formed. -/
def pyIntMag : List Char → Option Nat
  | [] => none
  | c :: r =>
    if c.isDigit && digitsOk r then
      some (((c :: r).filter (fun x => !(x == '_'))).foldl
        (fun a d => a * 10 + (d.toNat - 48)) 0)
    else none

/-- Python `int(s)` on ASCII decimal text: optional surrounding whitespace,
optional sign, digits (underscore separators allowed); `none` models the
`ValueError` raised on anything else. -/
def pyInt (s : String) : Option Int :=
  match ((s.data.dropWhile isPySpace).reverse.dropWhile isPySpace).reverse with
  | '+' :: r => (pyIntMag r).map (fun v => (v : Int))
  | '-' :: r => (pyIntMag r).map (fun v => -(v : Int))
  | r => (pyIntMag r).map (fun v => (v : Int))

/-- `fname.translate(str.maketrans("\\", "/"))`: backslash to forward slash. -/
def fwdSlash (s : String) : String :=
  String.mk (s.data.map (fun c => if c = '\\' then '/' else c))

/-! ## Python dict as an insertion-ordered association list -/

/-- Python `d[k]` lookup (`None`-free form: `Option`). -/
def dictFind {α : Type} : List (String × α) → String → Option α
  | [], _ => none
  | (k', v) :: r, k => if k' = k then some v else dictFind r k

/-- Python `d[k] = v`: replace in place or append, preserving order. -/
def dictPut {α : Type} : List (String × α) → String → α → List (String × α)
  | [], k, v => [(k, v)]
  | (k', v') :: r, k, v =>
    if k' = k then (k, v) :: r else (k', v') :: dictPut r k v

/-! ## Diff model

Structured form of what the external unidiff library hands back to
`read_diffs`: a patch set is a list of patched files, each a list of hunks
of tagged lines.  `target_lines()` of unidiff yields the lines present in
the post-change file, i.e. context and added lines, numbering them
consecutively from the hunk's target start; removed lines carry no target
line number. -/

inductive LineType where
  | context
  | added
  | removed
deriving DecidableEq

structure DiffLine where
  ltype : LineType
  value : String
deriving DecidableEq

structure Hunk where
  source_start : Int
  target_start : Int
  lines : List DiffLine
deriving DecidableEq

structure Patch where
  path : String
  hunks : List Hunk
deriving DecidableEq

/-- Target line numbers assigned from `s` on: context and added lines each
take the next number, removed lines take none (unidiff numbering). -/
def targetNosFrom (s : Int) : List DiffLine → List Int
  | [] => []
  | ⟨.removed, _⟩ :: r => targetNosFrom s r
  | ⟨.context, _⟩ :: r => s :: targetNosFrom (s + 1) r
  | ⟨.added, _⟩ :: r => s :: targetNosFrom (s + 1) r

/-- Number of lines of the hunk present in the post-change (target) file. -/
def targetCount : List DiffLine → Nat
  | [] => 0
  | ⟨.removed, _⟩ :: r => targetCount r
  | ⟨.context, _⟩ :: r => targetCount r + 1
  | ⟨.added, _⟩ :: r => targetCount r + 1

/-- The numbers collected from `hunk.target_lines()` in `read_diffs`. -/
def targetLineNos (h : Hunk) : List Int :=
  targetNosFrom h.target_start h.lines

/-- All target line numbers of one patched file (the set `lnos`). -/
def patchLineNos (p : Patch) : List Int :=
  (p.hunks.map targetLineNos).flatten

/-- The dict built by `read_diffs`: `diff_lines[patch.path] = lnos`. -/
def readDiffsFrom (ps : List Patch) : List (String × List Int) :=
  ps.foldl (fun d p => dictPut d p.path (patchLineNos p)) []

/-- `diffs.get(fname, [])` as used by the classifier. -/
def diffLookup (d : List (String × List Int)) (f : String) : List Int :=
  (dictFind d f).getD []

/-- Claim-side reading of the diff-index invariant (only for comparison with
the code's behaviour): the target line numbers of newly added lines alone,
excluding unchanged context lines. -/
def addedNosFrom (s : Int) : List DiffLine → List Int
  | [] => []
  | ⟨.removed, _⟩ :: r => addedNosFrom s r
  | ⟨.context, _⟩ :: r => addedNosFrom (s + 1) r
  | ⟨.added, _⟩ :: r => s :: addedNosFrom (s + 1) r

/-- Claim-side set for a hunk: added lines only. -/
def addedLineNos (h : Hunk) : List Int :=
  addedNosFrom h.target_start h.lines

/-! ## Text-level diff parsing

Model of the external unidiff `PatchSet(stream)` scanner, as consumed by
`read_diffs` (which performs no error handling of its own: a parse error in
unidiff propagates and aborts the run, while non-diff text is skipped line
by line and yields an empty patch set).  The scanner recognises source
headers, target headers and hunk headers; inside a hunk, lines starting
with a minus, a plus, a space (or empty lines) are diff lines counted
against the header's lengths, and a backslash introduces a no-newline
marker; any other line inside a hunk is a parse error.  Lines outside
hunks matching none of the headers are skipped as patch info. -/

/-- Read a run of decimal digits; fails if none are present. -/
def readNat (cs : List Char) : Option (Nat × List Char) :=
  let ds := cs.takeWhile Char.isDigit
  if ds.isEmpty then none
  else some (ds.foldl (fun a c => a * 10 + (c.toNat - 48)) 0, cs.drop ds.length)

/-- Expect the literal characters `pat` at the head of `cs`. -/
def expectChars : List Char → List Char → Option (List Char)
  | [], cs => some cs
  | _ :: _, [] => none
  | p :: ps, c :: cs => if c = p then expectChars ps cs else none

/-- An optional comma-and-length field of a hunk header; a lone comma fails
the header match (as in unidiff's anchored regular expression). -/
def readOptLen : List Char → Option (Nat × List Char)
  | ',' :: r => readNat r
  | r => some (1, r)

/-- Parse a hunk header, returning source start and length, target start
and length; `none` when the line is no hunk header. -/
def parseHunkHeader (line : String) : Option (Int × Nat × Int × Nat) := do
  let cs0 ← expectChars ('@' :: '@' :: ' ' :: '-' :: []) line.data
  let (ss, cs1) ← readNat cs0
  let (sl, cs2) ← readOptLen cs1
  let cs3 ← expectChars (' ' :: '+' :: []) cs2
  let (ts, cs4) ← readNat cs3
  let (tl, cs5) ← readOptLen cs4
  let _ ← expectChars (' ' :: '@' :: '@' :: []) cs5
  pure ((ss : Int), sl, (ts : Int), tl)

/-- The filename of a source/target header: up to the tab that may separate
it from a timestamp. -/
def headerName (s : String) : String :=
  String.mk (s.data.takeWhile (fun c => !(c == '\t')))

/-- unidiff's `PatchedFile.path`: strip the version-control markers when
present. -/
def mkPath (src tgt : String) : String :=
  if strBegins src "a/" && strBegins tgt "b/" then strDrop src 2
  else if strBegins src "a/" && (tgt == "/dev/null") then strDrop src 2
  else if strBegins tgt "b/" && (src == "/dev/null") then strDrop tgt 2
  else src

/-- A hunk being filled in: starts, remaining expected source and target
line counts and the lines read so far (reversed). -/
structure HunkBuild where
  source_start : Int
  target_start : Int
  srem : Nat
  trem : Nat
  rlines : List DiffLine

/-- Scanner state: completed patches (reversed), the pending source header,
the file being filled in (path, reversed hunks), the hunk being filled in,
and the absorbing error of a failed parse. -/
structure MState where
  rpatches : List Patch
  src : Option String
  cur : Option (String × List Hunk)
  hb : Option HunkBuild
  err : Option String

/-- The initial scanner state. -/
def initSt : MState := ⟨[], none, none, none, none⟩

/-- Close the file under construction into the completed patches. -/
def closePatches (rp : List Patch) (cur : Option (String × List Hunk)) :
    List Patch :=
  match cur with
  | none => rp
  | some (p, hks) => ⟨p, hks.reverse⟩ :: rp

/-- Consume one body line of an open hunk. -/
def consumeBody (h : HunkBuild) (line : String) : Except String HunkBuild :=
  match line.data with
  | [] =>
    if h.srem = 0 ∨ h.trem = 0 then .error "Hunk is longer than expected"
    else .ok ⟨h.source_start, h.target_start, h.srem - 1, h.trem - 1,
      ⟨.context, ""⟩ :: h.rlines⟩
  | c :: rest =>
    if c = '-' then
      if h.srem = 0 then .error "Hunk is longer than expected"
      else .ok ⟨h.source_start, h.target_start, h.srem - 1, h.trem,
        ⟨.removed, String.mk rest⟩ :: h.rlines⟩
    else if c = '+' then
      if h.trem = 0 then .error "Hunk is longer than expected"
      else .ok ⟨h.source_start, h.target_start, h.srem, h.trem - 1,
        ⟨.added, String.mk rest⟩ :: h.rlines⟩
    else if c = ' ' then
      if h.srem = 0 ∨ h.trem = 0 then .error "Hunk is longer than expected"
      else .ok ⟨h.source_start, h.target_start, h.srem - 1, h.trem - 1,
        ⟨.context, String.mk rest⟩ :: h.rlines⟩
    else if c = '\\' then .ok h
    else .error "Hunk diff line expected"

/-- Process one line while a hunk is open; the hunk closes into the current
file as soon as both expected counts are exhausted. -/
def stepBody (st : MState) (h : HunkBuild) (line : String) : MState :=
  match consumeBody h line with
  | .error e => ⟨st.rpatches, st.src, st.cur, none, some e⟩
  | .ok h' =>
    if h'.srem = 0 ∧ h'.trem = 0 then
      match st.cur with
      | some cf =>
        ⟨st.rpatches, st.src,
          some (cf.1, ⟨h'.source_start, h'.target_start, h'.rlines.reverse⟩ :: cf.2),
          none, none⟩
      | none => ⟨st.rpatches, st.src, none, none, some "hunk without file"⟩
    else ⟨st.rpatches, st.src, st.cur, some h', none⟩

/-- Process one input line. -/
def stepLine (st : MState) (line : String) : MState :=
  match st.err with
  | some _ => st
  | none =>
    match st.hb with
    | some h => stepBody st h line
    | none =>
      if strBegins line "--- " then
        ⟨closePatches st.rpatches st.cur, some (headerName (strDrop line 4)),
          none, none, none⟩
      else if strBegins line "+++ " then
        match st.src with
        | none => ⟨st.rpatches, none, st.cur, none, some "Target without source"⟩
        | some s =>
          ⟨st.rpatches, none, some (mkPath s (headerName (strDrop line 4)), []),
            none, none⟩
      else
        match parseHunkHeader line with
        | some (ss, sl, ts, tl) =>
          match st.cur with
          | none => ⟨st.rpatches, st.src, none, none, some "Unexpected hunk found"⟩
          | some cf =>
            if sl = 0 ∧ tl = 0 then
              ⟨st.rpatches, st.src, some (cf.1, ⟨ss, ts, []⟩ :: cf.2), none, none⟩
            else
              ⟨st.rpatches, st.src, some cf, some ⟨ss, ts, sl, tl, []⟩, none⟩
        | none => st

/-- Close any open hunk and file and deliver the parsed patches in order. -/
def finalizeSt (st : MState) : Except String (List Patch) :=
  match st.err with
  | some e => .error e
  | none =>
    let cur2 := match st.hb, st.cur with
      | some h, some cf =>
        some (cf.1, Hunk.mk h.source_start h.target_start h.rlines.reverse :: cf.2)
      | _, cf => cf
    .ok ((closePatches st.rpatches cur2).reverse)

/-- The unidiff `PatchSet` constructor over the whole input text. -/
def parsePatchSet (input : String) : Except String (List Patch) :=
  finalizeSt ((pySplitOn '\n' input).foldl stepLine initSt)

/-- A line that the scanner recognises as diff structure. -/
def isDiffMarker (l : String) : Bool :=
  strBegins l "--- " || strBegins l "+++ " || (parseHunkHeader l).isSome

/-- `read_diffs`: parse standard input with unidiff and collect, per patched
file, the set of target line numbers.  There is no exception handling in
the source, so a unidiff parse error propagates (`Except.error`). -/
def read_diffs (input : String) : Except String (List (String × List Int)) :=
  match parsePatchSet input with
  | .error e => .error e
  | .ok ps => .ok (readDiffsFrom ps)

/-! ## The output classifier `parse_output` -/

/-- The completed-process value returned by `subprocess.run` (stderr is
merged into stdout by the source). -/
structure ProcRet where
  stdout : String
  returncode : Int
deriving DecidableEq

/-- Summary results from running diff-lint (the `LintResult` named tuple). -/
structure LintResult where
  skipped : Nat
  mine : Nat
  always : Nat
  total : Nat
  other : Nat
  returncode : Int
  output : String
deriving DecidableEq

/-- `linted`: total of always + mine. -/
def LintResult.linted (r : LintResult) : Nat :=
  r.always + r.mine

/-- The loop state of `parse_output`: the five counters and the output
buffer `outf`. -/
structure PoState where
  skipped : Nat
  mine : Nat
  always : Nat
  total : Nat
  other : Nat
  out : String
deriving DecidableEq

/-- Evaluation of the optional `always_report` pattern against the captured
error code: `if always_report: match = re.match(always_report, err)`.  A
missing or empty (falsy) pattern is modelled by `none` and never matches. -/
def alwaysEval (am : Option (String → Bool)) (err : String) : Bool :=
  match am with
  | some g => g err
  | none => false

/-- `lno not in diffs.get(fname, [])`, negated: membership of the parsed
line value in the file's diff set.  When `int(lno)` failed the value is
still the captured string, which is never equal to any integer member, so
membership is false. -/
def memLno (lno : Option Int) (ls : List Int) : Bool :=
  match lno with
  | some n => ls.contains n
  | none => false

/-- One iteration of the `parse_output` loop.  `rm` is the rule's output
regular expression as a matching function yielding the `file`, `line` and
`err` captures; a non-matching line is counted as skipped and echoed into
the output buffer with a hash-sign marker. -/
def parse_line (diffs : List (String × List Int))
    (rm : String → Option (String × String × String))
    (am : Option (String → Bool)) (st : PoState) (line : String) : PoState :=
  match rm line with
  | none =>
    ⟨st.skipped + 1, st.mine, st.always, st.total + 1, st.other,
      st.out ++ "# " ++ line ++ "\n"⟩
  | some (fname, lnoStr, err) =>
    if ! memLno (pyInt lnoStr) (diffLookup diffs (fwdSlash fname)) then
      if ! alwaysEval am err then
        ⟨st.skipped, st.mine, st.always, st.total + 1, st.other + 1, st.out⟩
      else
        ⟨st.skipped, st.mine, st.always + 1, st.total + 1, st.other,
          st.out ++ line ++ "\n"⟩
    else
      ⟨st.skipped, st.mine + 1, st.always, st.total + 1, st.other,
        st.out ++ line ++ "\n"⟩

/-- `parse_output(diffs, ret, regex, always_report)`: classify every line
of the captured output and assemble the `LintResult`. -/
def parse_output (diffs : List (String × List Int)) (ret : ProcRet)
    (rm : String → Option (String × String × String))
    (am : Option (String → Bool)) : LintResult :=
  let st := (pySplitOn '\n' ret.stdout).foldl (parse_line diffs rm am)
    ⟨0, 0, 0, 0, 0, ""⟩
  ⟨st.skipped, st.mine, st.always, st.total, st.other, ret.returncode, st.out⟩

/-! ## The runner `do_lint` -/

/-- The reserved return code marking a missing executable. -/
def NOTFOUND : Int := -9

/-- Failure modes of spawning the external command: the executable is
absent (`FileNotFoundError`), or some other execution error. -/
inductive SpawnErr where
  | fileNotFound
  | other (msg : String)
deriving DecidableEq

/-- The fields `do_lint` reads from `config[linter]`; the regular
expression strings are embedded as their matching functions. -/
structure LintRule where
  command : String
  regex : String → Option (String × String × String)
  always_report : Option (String → Bool)

/-- Build the argument list: split the command template on spaces and
substitute the file-list placeholder token, appending the files at the end
when no placeholder occurs. -/
def buildCmd (cmd : String) (files : List String) : List String :=
  let fold := (pySplitOn ' ' cmd).foldl
    (fun (acc : List String × Bool) elem =>
      if elem = "\"$@\"" then (acc.1 ++ files, true)
      else (acc.1 ++ [elem], acc.2))
    ([], false)
  if fold.2 then fold.1 else fold.1 ++ files

/-- `do_lint(config, linter, diffs, files)` with the spawn capability
abstracted as `run`.  A `FileNotFoundError` is caught and converted into
the sentinel result; any other spawn failure propagates. -/
def do_lint (rule : LintRule) (linter : String)
    (diffs : List (String × List Int)) (files : List String)
    (run : List String → Except SpawnErr ProcRet) :
    Except SpawnErr LintResult :=
  match run (buildCmd rule.command files) with
  | .error .fileNotFound =>
    .ok ⟨0, 0, 0, 0, 0, NOTFOUND, "Command not found for '" ++ linter ++ "'\n"⟩
  | .error e => .error e
  | .ok ret => .ok (parse_output diffs ret rule.regex rule.always_report)

/-! ## Exit-status aggregation in `main` -/

/-- The per-rule value returned by `print_lint`: the sentinel return code
contributes one when strict else zero; otherwise the Python expression
`ret.linted > 0 and (ret.returncode or 1)` evaluates to zero (`False`)
when nothing was linted, and otherwise to the return code if nonzero,
else one. -/
def print_lint_code (strict : Bool) (r : LintResult) : Int :=
  if r.returncode = NOTFOUND then (if strict then 1 else 0)
  else if r.linted > 0 then (if r.returncode = 0 then 1 else r.returncode)
  else 0

/-- Python `max` over a list; `main` only applies it to the nonempty list
of per-rule codes (it returns early when no linter matched). -/
def pymax : List Int → Int
  | [] => 0
  | x :: xs => xs.foldl max x

/-- The driver's final exit status: `exitcode = max(...)` followed by
`sys.exit(exitcode)` when nonzero (falling through yields status zero,
which equals `exitcode` in that case). -/
def finalExit (strict : Bool) (rs : List LintResult) : Int :=
  pymax (rs.map (print_lint_code strict))

/-- Modelled from the spec's words, for comparison with the code: the
maximum over all rule results of zero if nothing was linted, else the
return code if nonzero, else one; a command-not-found result contributes
one if strict else zero. -/
def specRuleExit (strict : Bool) (r : LintResult) : Int :=
  if r.returncode = NOTFOUND then (if strict then 1 else 0)
  else if r.linted = 0 then 0
  else if r.returncode ≠ 0 then r.returncode
  else 1

/-! ## Configuration flattening `_config_to_dict` -/

/-- A configuration section as handed over by the configparser (the
layered file reading and DEFAULT-section merging are external). -/
abbrev CfgSection := List (String × String)

/-- `sec.get(key)`. -/
def sget : CfgSection → String → Option String
  | [], _ => none
  | (k', v) :: r, k => if k' = k then some v else sget r k

/-- The value kinds produced by `_str_to_int_or_bool`. -/
inductive PyVal where
  | pbool (b : Bool)
  | pint (n : Int)
  | pstr (s : String)
deriving DecidableEq

/-- The heterogeneous values of the flattened configuration dict: section
objects, extension lists of rule names, and coerced main scalars. -/
inductive CVal where
  | sec (s : CfgSection)
  | names (l : List String)
  | scal (v : PyVal)
deriving DecidableEq

/-- The flattened configuration dict `final`. -/
abbrev CDict := List (String × CVal)

/-- `_str_to_int_or_bool`: `True`/`False` (case-insensitively) or an
integer; anything else raises `ValueError`. -/
def _str_to_int_or_bool (v : String) : Except String PyVal :=
  if lowerStr v = "true" then .ok (.pbool true)
  else if lowerStr v = "false" then .ok (.pbool false)
  else match pyInt v with
    | some n => .ok (.pint n)
    | none => .error "ValueError"

/-- Register one extension token for a rule: `if ext not in final:
final[ext] = []` then `final[ext].append(secname)`.  Appending to a value
that is not a list raises an attribute error. -/
def addExtKey (d : CDict) (tok : String) (secname : String) :
    Except String CDict :=
  match dictFind d tok with
  | none => .ok (dictPut d tok (.names [secname]))
  | some (.names l) => .ok (dictPut d tok (.names (l ++ [secname])))
  | some _ => .error "AttributeError"

/-- Register every token of the split extensions string.  The source also
computes `ext.strip()` per token but discards the result, so the tokens
are registered untrimmed. -/
def addExtKeys (d : CDict) (secname : String) :
    List String → Except String CDict
  | [] => .ok d
  | t :: ts =>
    match addExtKey d t secname with
    | .error e => .error e
    | .ok d' => addExtKeys d' secname ts

/-- Process one configuration section: store the section object, skip it
when it declares no (truthy) extensions, validate the regex (the source
checks the literal text `file` occurring in the regex string) and the
command, and register the extension tokens of valid rules. -/
def procSection (d : CDict) (n : String) (s : CfgSection) :
    Except String CDict :=
  let d1 := dictPut d n (.sec s)
  match sget s "extensions" with
  | none => .ok d1
  | some ext =>
    if ext = "" then .ok d1
    else
      if strHasSub ((sget s "regex").getD "") "file"
          && !(((sget s "command").getD "") == "") then
        addExtKeys d1 n (pySplitOn ' ' ext)
      else .ok d1

/-- The section loop of `_config_to_dict`. -/
def procAll : CDict → List (String × CfgSection) → Except String CDict
  | d, [] => .ok d
  | d, (n, s) :: rest =>
    match procSection d n s with
    | .error e => .error e
    | .ok d' => procAll d' rest

/-- Flatten the items of the main section into the dict, coercing the
`parallel`/`debug`/`strict` values. -/
def coerceMainItems (d : CDict) : CfgSection → Except String CDict
  | [] => .ok d
  | (k, v) :: rest =>
    if k = "parallel" ∨ k = "debug" ∨ k = "strict" then
      match _str_to_int_or_bool v with
      | .error e => .error e
      | .ok pv => coerceMainItems (dictPut d k (.scal pv)) rest
    else coerceMainItems (dictPut d k (.scal (.pstr v))) rest

/-- `if "main" in final: ...` — iterating the items of a non-section value
would raise an attribute error. -/
def flattenMain (d : CDict) : Except String CDict :=
  match dictFind d "main" with
  | some (.sec m) => coerceMainItems d m
  | some _ => .error "AttributeError"
  | none => .ok d

/-- `_config_to_dict(config)`: convert the parsed configuration into the
internal dictionary. -/
def _config_to_dict (config : List (String × CfgSection)) :
    Except String CDict :=
  match procAll [] config with
  | .error e => .error e
  | .ok d => flattenMain d

/-- The validity condition a section must meet for its extension tokens to
be registered (truthy extensions, regex containing the text `file`,
nonempty command) — mirrors the branch of `procSection`. -/
def rulePasses (s : CfgSection) : Bool :=
  match sget s "extensions" with
  | none => false
  | some e =>
    if e = "" then false
    else strHasSub ((sget s "regex").getD "") "file"
      && !(((sget s "command").getD "") == "")

/-- The extension tokens a section would register if valid. -/
def allTokens (s : CfgSection) : List String :=
  match sget s "extensions" with
  | none => []
  | some e => if e = "" then [] else pySplitOn ' ' e

/-- Whether an exceptional computation succeeded. -/
def isOkE {ε α : Type} : Except ε α → Bool
  | .ok _ => true
  | .error _ => false

/-! ## Concrete instantiations used by witnesses and counterexamples

A pylint-style output regular expression (four colon-separated fields,
error code at the head of the fourth) and an always-report pattern, given
as matching functions; plus a spawn capability whose executable is
missing. -/

/-- A concrete rule output matcher in the shape of the repository's
default pylint regex: captures file, line and the error code. -/
def sampleMatch (line : String) : Option (String × String × String) :=
  match pySplitOn ':' line with
  | f :: l :: _ :: e :: _ =>
    if f = "" ∨ l = "" then none
    else some (f, l,
      String.mk ((e.data.dropWhile (fun c => c == ' ')).takeWhile
        (fun c => !(c == ' '))))
  | _ => none

/-- A concrete always-report matcher for the code W0613 (anchored, as
Python re.match is). -/
def sampleAlways (e : String) : Bool :=
  strBegins e "W0613"

/-- A spawn capability for an uninstalled executable. -/
def runMissing : List String → Except SpawnErr ProcRet :=
  fun _ => .error .fileNotFound

/-- A concrete pylint rule. -/
def pylintRule : LintRule :=
  ⟨"pylint", sampleMatch, some sampleAlways⟩

/-! ## Invariants of the configuration dict (proof machinery for the
configuration claims) -/

/-- Every extension list in the dict holds only names of valid rule
sections of `c`, under keys that are extension tokens of `c`. -/
def namesOkD (c : List (String × CfgSection)) (d : CDict) : Prop :=
  ∀ k l, dictFind d k = some (.names l) →
    (∀ x ∈ l, ∃ s, (x, s) ∈ c ∧ rulePasses s = true) ∧
    ∃ p ∈ c, k ∈ allTokens p.2

/-- Every section object in the dict is one of the sections of `c`, under
its own name. -/
def secOkD (c : List (String × CfgSection)) (d : CDict) : Prop :=
  ∀ k s, dictFind d k = some (.sec s) → (k, s) ∈ c

/-- No scalar values before the main-section flattening. -/
def scalNoneD (d : CDict) : Prop :=
  ∀ k v, dictFind d k = some (.scal v) → False

/-- The combined invariant of the section loop. -/
def InvDict (c : List (String × CfgSection)) (d : CDict) : Prop :=
  namesOkD c d ∧ secOkD c d ∧ scalNoneD d

/-- The no-collision condition on extension tokens: no token of any
section is itself a section name or the key of the main section. -/
def TokensFresh (c : List (String × CfgSection)) : Prop :=
  ∀ p ∈ c, ∀ t ∈ allTokens p.2, ¬ t ∈ c.map Prod.fst ∧ t ≠ "main"

/-- The main-section scalars parse: every `parallel`/`debug`/`strict`
value of a section named main coerces without a `ValueError`. -/
def MainCoercible (c : List (String × CfgSection)) : Prop :=
  ∀ p ∈ c, p.1 = "main" →
    ∀ kv ∈ p.2, (kv.1 = "parallel" ∨ kv.1 = "debug" ∨ kv.1 = "strict") →
      isOkE (_str_to_int_or_bool kv.2) = true

/-! # Theorems -/

/-! ## Association-list lemmas -/

theorem dictFind_dictPut_eq {α : Type} (d : List (String × α)) (k : String)
    (v : α) : dictFind (dictPut d k v) k = some v := by
  induction d with
  | nil => simp [dictPut, dictFind]
  | cons p r ih =>
    obtain ⟨k', v'⟩ := p
    by_cases h : k' = k
    · subst h; simp [dictPut, dictFind]
    · simp [dictPut, dictFind, h, ih]

theorem dictFind_dictPut_ne {α : Type} (d : List (String × α)) (k k' : String)
    (v : α) (h : k' ≠ k) :
    dictFind (dictPut d k v) k' = dictFind d k' := by
  induction d with
  | nil => simp [dictPut, dictFind, Ne.symm h]
  | cons p r ih =>
    obtain ⟨a, b⟩ := p
    by_cases ha : a = k
    · subst ha
      simp [dictPut, dictFind, Ne.symm h]
    · by_cases ha' : a = k'
      · subst ha'; simp [dictPut, dictFind, ha]
      · simp [dictPut, dictFind, ha, ha', ih]

/-! ## C10: each output line feeds exactly one of the four counters -/

/-- C10: for every process output, diff index and regex pair, the
`LintResult` of `parse_output` satisfies
total = skipped + mine + always + other. -/
theorem C10_total (diffs : List (String × List Int)) (ret : ProcRet)
    (rm : String → Option (String × String × String))
    (am : Option (String → Bool)) :
    (parse_output diffs ret rm am).total =
      (parse_output diffs ret rm am).skipped +
      (parse_output diffs ret rm am).mine +
      (parse_output diffs ret rm am).always +
      (parse_output diffs ret rm am).other := by
  have aux : ∀ (ls : List String) (st : PoState),
      st.total = st.skipped + st.mine + st.always + st.other →
      (ls.foldl (parse_line diffs rm am) st).total =
        (ls.foldl (parse_line diffs rm am) st).skipped +
        (ls.foldl (parse_line diffs rm am) st).mine +
        (ls.foldl (parse_line diffs rm am) st).always +
        (ls.foldl (parse_line diffs rm am) st).other := by
    intro ls
    induction ls with
    | nil => intro st h; simpa using h
    | cons a r ih =>
      intro st h
      simp only [List.foldl_cons]
      apply ih
      unfold parse_line
      cases hrm : rm a with
      | none => simp; omega
      | some t =>
        obtain ⟨f, ln, e⟩ := t
        cases hb : memLno (pyInt ln) (diffLookup diffs (fwdSlash f)) <;>
          cases ha : alwaysEval am e <;> simp [hb, ha] <;> omega
  exact aux (pySplitOn '\n' ret.stdout) ⟨0, 0, 0, 0, 0, ""⟩ rfl

/-! ## C7: unparsable line numbers are treated as absent from the diff -/

/-- C7: a matched output line whose captured line text does not parse as an
integer is treated as never present in the diff index (for every diff
index): it is counted as other and suppressed, unless the always-report
pattern matches the captured error code, in which case it is counted as
always and surfaced. -/
theorem C7_unparsable (diffs : List (String × List Int))
    (rm : String → Option (String × String × String))
    (am : Option (String → Bool)) (st : PoState) (line f l e : String)
    (hm : rm line = some (f, l, e)) (hp : pyInt l = none) :
    parse_line diffs rm am st line =
      if alwaysEval am e then
        ⟨st.skipped, st.mine, st.always + 1, st.total + 1, st.other,
          st.out ++ line ++ "\n"⟩
      else
        ⟨st.skipped, st.mine, st.always, st.total + 1, st.other + 1, st.out⟩ := by
  unfold parse_line
  rw [hm]
  dsimp only
  rw [hp]
  cases ha : alwaysEval am e <;> simp [ha, memLno]

/-- Witness for C7 at a concrete pylint-style line with a garbage line
number. -/
theorem C7_witness :
    sampleMatch "f.py:XX:1: E1: boom" = some ("f.py", "XX", "E1") ∧
    pyInt "XX" = none ∧
    parse_line [("f.py", [1])] sampleMatch none ⟨0, 0, 0, 0, 0, ""⟩
      "f.py:XX:1: E1: boom" = ⟨0, 0, 0, 1, 1, ""⟩ :=
  ⟨rfl, rfl,
    C7_unparsable [("f.py", [1])] sampleMatch none ⟨0, 0, 0, 0, 0, ""⟩
      "f.py:XX:1: E1: boom" "f.py" "XX" "E1" rfl rfl⟩

/-! ## C1: always-report versus diff membership -/

/-- C1 counterexample: an output line whose err matches the configured
always-report pattern and whose line number is in the diff index is
counted as mine, not always — refuting the claim that it is still
classified always. -/
theorem C1_counterexample :
    (parse_output [("test/badcode.py", [2])]
        ⟨"test/badcode.py:2:10: W0613: unused", 0⟩
        sampleMatch (some sampleAlways)).always = 0 ∧
    (parse_output [("test/badcode.py", [2])]
        ⟨"test/badcode.py:2:10: W0613: unused", 0⟩
        sampleMatch (some sampleAlways)).mine = 1 := by
  exact ⟨rfl, rfl⟩

/-- C1 amended: a matched line whose err matches always-report is surfaced
into the filtered output regardless of diff membership, but it is counted
as always only when its line number is not in the diff index; when the
line number is in the diff index it is counted as mine. -/
theorem C1_amended (diffs : List (String × List Int))
    (rm : String → Option (String × String × String))
    (am : Option (String → Bool)) (st : PoState) (line f l e : String)
    (hm : rm line = some (f, l, e)) (ha : alwaysEval am e = true) :
    parse_line diffs rm am st line =
      if memLno (pyInt l) (diffLookup diffs (fwdSlash f)) then
        ⟨st.skipped, st.mine + 1, st.always, st.total + 1, st.other,
          st.out ++ line ++ "\n"⟩
      else
        ⟨st.skipped, st.mine, st.always + 1, st.total + 1, st.other,
          st.out ++ line ++ "\n"⟩ := by
  unfold parse_line
  rw [hm]
  cases hb : memLno (pyInt l) (diffLookup diffs (fwdSlash f)) <;> simp [hb, ha]

/-- Witness for the amended C1 at a concrete out-of-diff line. -/
theorem C1_amended_witness :
    sampleMatch "a.py:1:0: W0613: x" = some ("a.py", "1", "W0613") ∧
    alwaysEval (some sampleAlways) "W0613" = true ∧
    parse_line [] sampleMatch (some sampleAlways) ⟨0, 0, 0, 0, 0, ""⟩
      "a.py:1:0: W0613: x" = ⟨0, 0, 1, 1, 0, "a.py:1:0: W0613: x\n"⟩ :=
  ⟨rfl, rfl,
    C1_amended [] sampleMatch (some sampleAlways) ⟨0, 0, 0, 0, 0, ""⟩
      "a.py:1:0: W0613: x" "a.py" "1" "W0613" rfl rfl⟩

/-! ## C4: non-matching lines are always echoed into the output -/

/-- C4: at a non-matching output line, skipped increments (mine, always,
other unchanged) but the hash-marked line is written into the filtered
output unconditionally — `parse_output` receives no debug flag at all, so
the output cannot depend on debug mode, contradicting the claimed
debug-only pass-through. -/
theorem C4_eval :
    parse_output [] ⟨"hello", 0⟩ sampleMatch none =
      ⟨1, 0, 0, 1, 0, 0, "# hello\n"⟩ := by
  rfl

/-! ## C6: missing executables yield the sentinel result -/

/-- C6: when spawning the rule's command reports a missing executable,
`do_lint` returns (rather than raises) the sentinel result: the reserved
not-found return code, all counts zero, and an informative message. -/
theorem C6_notfound (rule : LintRule) (linter : String)
    (diffs : List (String × List Int)) (files : List String)
    (run : List String → Except SpawnErr ProcRet)
    (h : run (buildCmd rule.command files) = .error .fileNotFound) :
    do_lint rule linter diffs files run =
      .ok ⟨0, 0, 0, 0, 0, NOTFOUND,
        "Command not found for '" ++ linter ++ "'\n"⟩ := by
  unfold do_lint
  rw [h]

/-- Witness for C6 with a concrete missing pylint executable. -/
theorem C6_witness :
    runMissing (buildCmd pylintRule.command ["f.py"]) = .error .fileNotFound ∧
    do_lint pylintRule "pylint" [] ["f.py"] runMissing =
      .ok ⟨0, 0, 0, 0, 0, NOTFOUND, "Command not found for 'pylint'\n"⟩ :=
  ⟨rfl, C6_notfound pylintRule "pylint" [] ["f.py"] runMissing rfl⟩

/-! ## C2: exit-status aggregation -/

/-- C2: the driver's final exit status is the maximum over all rule
results of: zero if nothing was linted, else the return code if nonzero,
else one; a command-not-found sentinel contributes one when strict and
zero otherwise. -/
theorem C2_exit_status (strict : Bool) (rs : List LintResult) :
    finalExit strict rs = pymax (rs.map (specRuleExit strict)) := by
  have h : print_lint_code strict = specRuleExit strict := by
    funext r
    unfold print_lint_code specRuleExit
    split_ifs <;> omega
  unfold finalExit
  rw [h]

/-! ## C3: contents of the diff index -/

theorem mem_targetNosFrom (ls : List DiffLine) : ∀ (s n : Int),
    n ∈ targetNosFrom s ls ↔ s ≤ n ∧ n < s + (targetCount ls : Int) := by
  induction ls with
  | nil =>
    intro s n
    simp [targetNosFrom, targetCount]
  | cons d r ih =>
    intro s n
    obtain ⟨t, v⟩ := d
    cases t <;>
      simp [targetNosFrom, targetCount, List.mem_cons, ih] <;>
      omega

theorem readFold_congr (ps : List Patch) :
    ∀ (d1 d2 : List (String × List Int)) (f : String),
    dictFind d1 f = dictFind d2 f →
    dictFind (ps.foldl (fun d p => dictPut d p.path (patchLineNos p)) d1) f =
      dictFind (ps.foldl (fun d p => dictPut d p.path (patchLineNos p)) d2) f := by
  induction ps with
  | nil => intro d1 d2 f h; simpa using h
  | cons p r ih =>
    intro d1 d2 f h
    simp only [List.foldl_cons]
    apply ih
    by_cases hp : f = p.path
    · subst hp; rw [dictFind_dictPut_eq, dictFind_dictPut_eq]
    · rw [dictFind_dictPut_ne _ _ _ _ hp, dictFind_dictPut_ne _ _ _ _ hp]
      exact h

theorem readFold_not_mem (ps : List Patch) :
    ∀ (d : List (String × List Int)) (f : String),
    f ∉ ps.map Patch.path →
    dictFind (ps.foldl (fun d p => dictPut d p.path (patchLineNos p)) d) f =
      dictFind d f := by
  induction ps with
  | nil => intro d f _; rfl
  | cons p r ih =>
    intro d f h
    simp only [List.map_cons, List.mem_cons, not_or] at h
    simp only [List.foldl_cons]
    rw [ih _ _ h.2, dictFind_dictPut_ne _ _ _ _ h.1]

/-- C3 counterexample: for a hunk whose first target line is an unchanged
context line (a diff produced with nonzero context width), the context
line's number is in the file's set of the built diff index, although it is
not a newly added line — refuting the claim that only added or modified
lines appear. -/
theorem C3_counterexample :
    (1 : Int) ∈ diffLookup
      (readDiffsFrom [⟨"a.py", [⟨1, 1, [⟨.context, "x"⟩, ⟨.added, "y"⟩]⟩]⟩])
      "a.py" ∧
    ¬ (1 : Int) ∈ addedLineNos ⟨1, 1, [⟨.context, "x"⟩, ⟨.added, "y"⟩]⟩ := by
  decide

/-- C3 amended: a line number appears in a file's set of the built diff
index iff that line exists in the post-change (target) version of some
hunk of that file — i.e. it is an added or context line numbered in the
target file; deleted lines never contribute a number. -/
theorem C3_amended (ps : List Patch) (f : String) (n : Int)
    (hnd : (ps.map Patch.path).Nodup) :
    n ∈ diffLookup (readDiffsFrom ps) f ↔
      ∃ p ∈ ps, p.path = f ∧ ∃ h ∈ p.hunks,
        h.target_start ≤ n ∧ n < h.target_start + (targetCount h.lines : Int) := by
  induction ps with
  | nil => simp [readDiffsFrom, diffLookup, dictFind]
  | cons p r ih =>
    simp only [List.map_cons, List.nodup_cons] at hnd
    obtain ⟨hp, hr⟩ := hnd
    by_cases hf : f = p.path
    · subst hf
      have h1 : dictFind (readDiffsFrom (p :: r)) p.path =
          some (patchLineNos p) := by
        unfold readDiffsFrom
        simp only [List.foldl_cons]
        rw [readFold_not_mem r _ p.path hp]
        exact dictFind_dictPut_eq [] p.path (patchLineNos p)
      rw [diffLookup, h1]
      simp only [Option.getD_some]
      constructor
      · intro hmem
        have hex : ∃ hk ∈ p.hunks, n ∈ targetLineNos hk := by
          simpa [patchLineNos, List.mem_flatten, List.mem_map] using hmem
        rcases hex with ⟨hk, hhk, hmm⟩
        exact ⟨p, List.mem_cons_self p r, rfl,
          ⟨hk, hhk, (mem_targetNosFrom hk.lines hk.target_start n).mp hmm⟩⟩
      · rintro ⟨q, hq, hqpath, hk, hhk, hrange⟩
        rcases List.mem_cons.mp hq with rfl | hq'
        · have : n ∈ targetLineNos hk :=
            (mem_targetNosFrom hk.lines hk.target_start n).mpr hrange
          simp only [patchLineNos, List.mem_flatten]
          exact ⟨targetLineNos hk, List.mem_map_of_mem _ hhk, this⟩
        · exact absurd (hqpath ▸ List.mem_map_of_mem Patch.path hq') hp
    · have h2 : diffLookup (readDiffsFrom (p :: r)) f =
          diffLookup (readDiffsFrom r) f := by
        unfold readDiffsFrom diffLookup
        simp only [List.foldl_cons]
        rw [readFold_congr r (dictPut [] p.path (patchLineNos p)) [] f
          (by rw [dictFind_dictPut_ne _ _ _ _ hf])]
      rw [h2, ih hr]
      constructor
      · rintro ⟨q, hq, rest⟩
        exact ⟨q, List.mem_cons_of_mem _ hq, rest⟩
      · rintro ⟨q, hq, hqpath, rest⟩
        rcases List.mem_cons.mp hq with rfl | hq'
        · exact absurd hqpath.symm hf
        · exact ⟨q, hq', hqpath, rest⟩

/-- Witness for the amended C3 at a concrete one-hunk patch set. -/
theorem C3_amended_witness :
    (([⟨"b.py", [⟨3, 5, [⟨.added, "z"⟩]⟩]⟩] : List Patch).map Patch.path).Nodup ∧
    ((5 : Int) ∈ diffLookup
        (readDiffsFrom [⟨"b.py", [⟨3, 5, [⟨.added, "z"⟩]⟩]⟩]) "b.py" ↔
      ∃ p ∈ ([⟨"b.py", [⟨3, 5, [⟨.added, "z"⟩]⟩]⟩] : List Patch),
        p.path = "b.py" ∧ ∃ h ∈ p.hunks,
          h.target_start ≤ 5 ∧ 5 < h.target_start + (targetCount h.lines : Int)) :=
  ⟨by decide, C3_amended [⟨"b.py", [⟨3, 5, [⟨.added, "z"⟩]⟩]⟩] "b.py" 5 (by decide)⟩

/-! ## C5: non-diff input degrades to an empty index -/

theorem stepLine_skips (l : String) (h : isDiffMarker l = false) :
    stepLine initSt l = initSt := by
  have h1 : strBegins l "--- " = false := by
    cases hx : strBegins l "--- " with
    | false => rfl
    | true => simp [isDiffMarker, hx] at h
  have h2 : strBegins l "+++ " = false := by
    cases hx : strBegins l "+++ " with
    | false => rfl
    | true => simp [isDiffMarker, hx] at h
  have h3 : parseHunkHeader l = none := by
    cases hx : parseHunkHeader l with
    | none => rfl
    | some v => simp [isDiffMarker, hx] at h
  simp [stepLine, initSt, h1, h2, h3]

theorem foldl_skips (ls : List String)
    (h : ∀ l ∈ ls, isDiffMarker l = false) :
    ls.foldl stepLine initSt = initSt := by
  induction ls with
  | nil => rfl
  | cons a r ih =>
    simp only [List.foldl_cons]
    rw [stepLine_skips a (h a (List.mem_cons_self a r))]
    exact ih (fun l hl => h l (List.mem_cons_of_mem a hl))

/-- C5: when no line of the input is diff structure (source header, target
header or hunk header), building the diff index does not fail: the result
is the empty mapping, under which every classifier lookup yields the empty
set, so every finding is treated as not-in-diff. -/
theorem C5_garbage (input : String)
    (h : ∀ l ∈ pySplitOn '\n' input, isDiffMarker l = false) :
    read_diffs input = .ok [] ∧
    ∀ f : String, diffLookup [] f = [] := by
  constructor
  · unfold read_diffs parsePatchSet
    rw [foldl_skips _ h]
    rfl
  · intro f
    rfl

/-- Witness for C5 on concrete garbage input. -/
theorem C5_witness :
    (∀ l ∈ pySplitOn '\n' "hello world\nthis is not a diff",
      isDiffMarker l = false) ∧
    (read_diffs "hello world\nthis is not a diff" = .ok [] ∧
      ∀ f : String, diffLookup [] f = []) :=
  ⟨by decide, C5_garbage "hello world\nthis is not a diff" (by decide)⟩

/-- Sanity check of the diff model against the repository's own test diff:
a single hunk replacing line 2 yields exactly the set with the number 2. -/
theorem read_diffs_sample :
    read_diffs
      "\ndiff --git a/test/badcode.py b/test/badcode.py\nindex 81e7297..dcdbd1f 100644\n--- a/test/badcode.py\n+++ b/test/badcode.py\n@@ -2 +2 @@ def foo(baz):\n-    print(bar);\n+    print(bar)\n    " =
      .ok [("test/badcode.py", [2])] := by
  rfl

/-! ## C8 and C9: configuration loading -/

theorem assoc_uniq {α : Type} (c : List (String × α))
    (hnd : (c.map Prod.fst).Nodup) (k : String) (v1 v2 : α)
    (h1 : (k, v1) ∈ c) (h2 : (k, v2) ∈ c) : v1 = v2 := by
  induction c with
  | nil => cases h1
  | cons p r ih =>
    obtain ⟨a, b⟩ := p
    simp only [List.map_cons, List.nodup_cons] at hnd
    rcases List.mem_cons.mp h1 with he1 | h1'
    · rcases List.mem_cons.mp h2 with he2 | h2'
      · rw [Prod.mk.injEq] at he1 he2
        rw [he1.2, he2.2]
      · exfalso
        apply hnd.1
        rw [Prod.mk.injEq] at he1
        rw [← he1.1]
        exact List.mem_map_of_mem Prod.fst h2'
    · rcases List.mem_cons.mp h2 with he2 | h2'
      · exfalso
        apply hnd.1
        rw [Prod.mk.injEq] at he2
        rw [← he2.1]
        exact List.mem_map_of_mem Prod.fst h1'
      · exact ih hnd.2 h1' h2'

theorem InvDict_put_sec (c : List (String × CfgSection)) (d : CDict)
    (n : String) (s : CfgSection) (hinv : InvDict c d) (hmem : (n, s) ∈ c) :
    InvDict c (dictPut d n (.sec s)) := by
  obtain ⟨h1, h2, h3⟩ := hinv
  refine ⟨?_, ?_, ?_⟩
  · intro k l hk
    by_cases he : k = n
    · subst he; rw [dictFind_dictPut_eq] at hk; simp at hk
    · rw [dictFind_dictPut_ne _ _ _ _ he] at hk; exact h1 k l hk
  · intro k s' hk
    by_cases he : k = n
    · subst he
      rw [dictFind_dictPut_eq] at hk
      simp only [Option.some.injEq, CVal.sec.injEq] at hk
      rw [← hk]
      exact hmem
    · rw [dictFind_dictPut_ne _ _ _ _ he] at hk; exact h2 k s' hk
  · intro k v hk
    by_cases he : k = n
    · subst he; rw [dictFind_dictPut_eq] at hk; simp at hk
    · rw [dictFind_dictPut_ne _ _ _ _ he] at hk; exact h3 k v hk

theorem addExtKey_inv (c : List (String × CfgSection)) (d : CDict)
    (tok secname : String) (hinv : InvDict c d)
    (htokname : ¬ tok ∈ c.map Prod.fst)
    (htokk : ∃ p ∈ c, tok ∈ allTokens p.2)
    (hsec : ∃ s, (secname, s) ∈ c ∧ rulePasses s = true) :
    ∃ d', addExtKey d tok secname = .ok d' ∧ InvDict c d' := by
  obtain ⟨h1, h2, h3⟩ := hinv
  cases hfind : dictFind d tok with
  | none =>
    refine ⟨dictPut d tok (.names [secname]), by simp [addExtKey, hfind], ?_, ?_, ?_⟩
    · intro k l hk
      by_cases he : k = tok
      · subst he
        rw [dictFind_dictPut_eq] at hk
        simp only [Option.some.injEq, CVal.names.injEq] at hk
        refine ⟨?_, htokk⟩
        intro x hx
        rw [← hk] at hx
        simp only [List.mem_singleton] at hx
        rw [hx]
        exact hsec
      · rw [dictFind_dictPut_ne _ _ _ _ he] at hk; exact h1 k l hk
    · intro k s' hk
      by_cases he : k = tok
      · subst he; rw [dictFind_dictPut_eq] at hk; simp at hk
      · rw [dictFind_dictPut_ne _ _ _ _ he] at hk; exact h2 k s' hk
    · intro k v hk
      by_cases he : k = tok
      · subst he; rw [dictFind_dictPut_eq] at hk; simp at hk
      · rw [dictFind_dictPut_ne _ _ _ _ he] at hk; exact h3 k v hk
  | some v =>
    cases v with
    | names l0 =>
      refine ⟨dictPut d tok (.names (l0 ++ [secname])),
        by simp [addExtKey, hfind], ?_, ?_, ?_⟩
      · intro k l hk
        by_cases he : k = tok
        · subst he
          rw [dictFind_dictPut_eq] at hk
          simp only [Option.some.injEq, CVal.names.injEq] at hk
          refine ⟨?_, htokk⟩
          intro x hx
          rw [← hk] at hx
          rcases List.mem_append.mp hx with hx' | hx'
          · exact (h1 k l0 hfind).1 x hx'
          · simp only [List.mem_singleton] at hx'
            rw [hx']
            exact hsec
        · rw [dictFind_dictPut_ne _ _ _ _ he] at hk; exact h1 k l hk
      · intro k s' hk
        by_cases he : k = tok
        · subst he; rw [dictFind_dictPut_eq] at hk; simp at hk
        · rw [dictFind_dictPut_ne _ _ _ _ he] at hk; exact h2 k s' hk
      · intro k v hk
        by_cases he : k = tok
        · subst he; rw [dictFind_dictPut_eq] at hk; simp at hk
        · rw [dictFind_dictPut_ne _ _ _ _ he] at hk; exact h3 k v hk
    | sec s' =>
      exact absurd (List.mem_map_of_mem Prod.fst (h2 tok s' hfind)) htokname
    | scal v' =>
      exact absurd hfind (fun hh => h3 tok v' hh)

theorem addExtKeys_inv (c : List (String × CfgSection)) (secname : String)
    (hsec : ∃ s, (secname, s) ∈ c ∧ rulePasses s = true) :
    ∀ (toks : List String) (d : CDict), InvDict c d →
    (∀ t ∈ toks, ¬ t ∈ c.map Prod.fst) →
    (∀ t ∈ toks, ∃ p ∈ c, t ∈ allTokens p.2) →
    ∃ d', addExtKeys d secname toks = .ok d' ∧ InvDict c d' := by
  intro toks
  induction toks with
  | nil => intro d hinv _ _; exact ⟨d, rfl, hinv⟩
  | cons t ts ih =>
    intro d hinv hn hk
    obtain ⟨d1, he, hinv1⟩ := addExtKey_inv c d t secname hinv
      (hn t (List.mem_cons_self t ts)) (hk t (List.mem_cons_self t ts)) hsec
    obtain ⟨d2, he2, hinv2⟩ := ih d1 hinv1
      (fun x hx => hn x (List.mem_cons_of_mem t hx))
      (fun x hx => hk x (List.mem_cons_of_mem t hx))
    exact ⟨d2, by simp [addExtKeys, he, he2], hinv2⟩

theorem procSection_inv (c : List (String × CfgSection)) (d : CDict)
    (n : String) (s : CfgSection) (hinv : InvDict c d) (hmem : (n, s) ∈ c)
    (hfresh : TokensFresh c) :
    ∃ d', procSection d n s = .ok d' ∧ InvDict c d' := by
  have hinv1 : InvDict c (dictPut d n (.sec s)) :=
    InvDict_put_sec c d n s hinv hmem
  cases hext : sget s "extensions" with
  | none => exact ⟨_, by simp [procSection, hext], hinv1⟩
  | some ext =>
    by_cases hemp : ext = ""
    · exact ⟨_, by simp [procSection, hext, hemp], hinv1⟩
    · by_cases hvalid : (strHasSub ((sget s "regex").getD "") "file"
          && !(((sget s "command").getD "") == "")) = true
      · have hpass : rulePasses s = true := by
          simp [rulePasses, hext, hemp, hvalid]
        have htoks : allTokens s = pySplitOn ' ' ext := by
          simp [allTokens, hext, hemp]
        obtain ⟨d', he, hinv'⟩ := addExtKeys_inv c n ⟨s, hmem, hpass⟩
          (pySplitOn ' ' ext) (dictPut d n (.sec s)) hinv1
          (fun t ht => (hfresh (n, s) hmem t (htoks ▸ ht)).1)
          (fun t ht => ⟨(n, s), hmem, htoks ▸ ht⟩)
        exact ⟨d', by simp [procSection, hext, hemp, hvalid, he], hinv'⟩
      · exact ⟨_, by simp [procSection, hext, hemp, hvalid], hinv1⟩

theorem procAll_inv (c : List (String × CfgSection)) (hfresh : TokensFresh c) :
    ∀ (rest : List (String × CfgSection)) (d : CDict),
    (∀ p ∈ rest, p ∈ c) → InvDict c d →
    ∃ d', procAll d rest = .ok d' ∧ InvDict c d' := by
  intro rest
  induction rest with
  | nil => intro d _ hinv; exact ⟨d, rfl, hinv⟩
  | cons p r ih =>
    intro d hsub hinv
    obtain ⟨n, s⟩ := p
    obtain ⟨d1, he, hinv1⟩ := procSection_inv c d n s hinv
      (hsub (n, s) (List.mem_cons_self _ _)) hfresh
    obtain ⟨d2, he2, hinv2⟩ := ih d1
      (fun q hq => hsub q (List.mem_cons_of_mem _ hq)) hinv1
    exact ⟨d2, by simp [procAll, he, he2], hinv2⟩

theorem coerceMainItems_ok : ∀ (items : CfgSection),
    (∀ kv ∈ items, (kv.1 = "parallel" ∨ kv.1 = "debug" ∨ kv.1 = "strict") →
      isOkE (_str_to_int_or_bool kv.2) = true) →
    ∀ d : CDict, ∃ d', coerceMainItems d items = .ok d' ∧
      (∀ k l, dictFind d' k = some (.names l) →
        dictFind d k = some (.names l)) := by
  intro items
  induction items with
  | nil => intro _ d; exact ⟨d, rfl, fun _ _ h => h⟩
  | cons kv rest ih =>
    intro hco d
    obtain ⟨k0, v0⟩ := kv
    by_cases htr : k0 = "parallel" ∨ k0 = "debug" ∨ k0 = "strict"
    · have hok : isOkE (_str_to_int_or_bool v0) = true :=
        hco (k0, v0) (List.mem_cons_self _ _) htr
      cases hc : _str_to_int_or_bool v0 with
      | error e => rw [hc] at hok; simp [isOkE] at hok
      | ok pv =>
        obtain ⟨d', he, hpres⟩ :=
          ih (fun kv h => hco kv (List.mem_cons_of_mem _ h))
            (dictPut d k0 (.scal pv))
        refine ⟨d', ?_, ?_⟩
        · show coerceMainItems d ((k0, v0) :: rest) = .ok d'
          rw [coerceMainItems, if_pos htr, hc]
          exact he
        · intro k l hfind
          have h2 := hpres k l hfind
          by_cases hk : k = k0
          · subst hk; rw [dictFind_dictPut_eq] at h2; simp at h2
          · rw [dictFind_dictPut_ne _ _ _ _ hk] at h2; exact h2
    · obtain ⟨d', he, hpres⟩ :=
        ih (fun kv h => hco kv (List.mem_cons_of_mem _ h))
          (dictPut d k0 (.scal (.pstr v0)))
      refine ⟨d', ?_, ?_⟩
      · show coerceMainItems d ((k0, v0) :: rest) = .ok d'
        rw [coerceMainItems, if_neg htr]
        exact he
      · intro k l hfind
        have h2 := hpres k l hfind
        by_cases hk : k = k0
        · subst hk; rw [dictFind_dictPut_eq] at h2; simp at h2
        · rw [dictFind_dictPut_ne _ _ _ _ hk] at h2; exact h2

/-- C8 counterexample: a configuration holding an invalid rule (regex
without a file capture, so it is skipped) together with an unparsable main
scalar makes the load raise a ValueError — refuting that loading always
completes for any configuration containing such rules. -/
theorem C8_counterexample :
    _config_to_dict
      [("main", [("parallel", "banana")]),
       ("badrule", [("extensions", ".py"), ("command", "x"),
         ("regex", "nothing")])] = .error "ValueError" := by
  rfl

/-- C8 amended: invalid rules (regex without the file text, or empty
command) are excluded from the active rule set — no extension key of the
flattened dict lists them — and they never make the load fail: the load
completes whenever the main-section scalars coerce and no extension token
collides with a section name or the main key (failures can only stem from
those unrelated conditions). -/
theorem C8_amended (c : List (String × CfgSection))
    (hnd : (c.map Prod.fst).Nodup)
    (hfresh : TokensFresh c)
    (hmain : MainCoercible c) :
    ∃ d, _config_to_dict c = .ok d ∧
      ∀ p ∈ c, rulePasses p.2 = false →
        ∀ k l, dictFind d k = some (.names l) → ¬ p.1 ∈ l := by
  have hinv0 : InvDict c [] :=
    ⟨fun k l h => by simp [dictFind] at h,
     fun k s h => by simp [dictFind] at h,
     fun k v h => by simp [dictFind] at h⟩
  obtain ⟨d1, he1, hinv1⟩ := procAll_inv c hfresh c [] (fun p h => h) hinv0
  obtain ⟨hN, hS, hZ⟩ := hinv1
  have excl : ∀ p ∈ c, rulePasses p.2 = false →
      ∀ k l, dictFind d1 k = some (.names l) → ¬ p.1 ∈ l := by
    intro p hp hfail k l hfind hmem
    obtain ⟨s', hs', hpass⟩ := (hN k l hfind).1 p.1 hmem
    have : s' = p.2 := assoc_uniq c hnd p.1 s' p.2 hs' hp
    rw [this] at hpass
    rw [hpass] at hfail
    cases hfail
  cases hm : dictFind d1 "main" with
  | none =>
    refine ⟨d1, ?_, excl⟩
    simp [_config_to_dict, he1, flattenMain, hm]
  | some v =>
    cases v with
    | sec m =>
      have hmm : ("main", m) ∈ c := hS "main" m hm
      obtain ⟨d2, he2, hpres⟩ := coerceMainItems_ok m
        (fun kv hkv => hmain ("main", m) hmm rfl kv hkv) d1
      refine ⟨d2, ?_, ?_⟩
      · simp [_config_to_dict, he1, flattenMain, hm, he2]
      · intro p hp hfail k l hfind
        exact excl p hp hfail k l (hpres k l hfind)
    | names l0 =>
      exfalso
      obtain ⟨p, hp, htk⟩ := (hN "main" l0 hm).2
      exact (hfresh p hp "main" htk).2 rfl
    | scal v0 =>
      exact absurd hm (fun hh => hZ "main" v0 hh)

/-- Witness for the amended C8 on a small configuration with one valid and
one invalid rule. -/
theorem C8_witness :
    (([("main", [("debug", "1")]),
       ("good", [("extensions", ".py"), ("command", "x"),
         ("regex", "(?P<file>a)")]),
       ("bad", [("extensions", ".py"), ("command", "")])].map Prod.fst).Nodup) ∧
    TokensFresh [("main", [("debug", "1")]),
       ("good", [("extensions", ".py"), ("command", "x"),
         ("regex", "(?P<file>a)")]),
       ("bad", [("extensions", ".py"), ("command", "")])] ∧
    MainCoercible [("main", [("debug", "1")]),
       ("good", [("extensions", ".py"), ("command", "x"),
         ("regex", "(?P<file>a)")]),
       ("bad", [("extensions", ".py"), ("command", "")])] ∧
    (∃ d, _config_to_dict [("main", [("debug", "1")]),
       ("good", [("extensions", ".py"), ("command", "x"),
         ("regex", "(?P<file>a)")]),
       ("bad", [("extensions", ".py"), ("command", "")])] = .ok d ∧
      ∀ p ∈ [("main", [("debug", "1")]),
       ("good", [("extensions", ".py"), ("command", "x"),
         ("regex", "(?P<file>a)")]),
       ("bad", [("extensions", ".py"), ("command", "")])],
        rulePasses p.2 = false →
        ∀ k l, dictFind d k = some (.names l) → ¬ p.1 ∈ l) :=
  ⟨by decide, by unfold TokensFresh; decide, by unfold MainCoercible; decide,
    C8_amended _ (by decide) (by unfold TokensFresh; decide)
      (by unfold MainCoercible; decide)⟩

/-- C9: the extension tokens are split on single spaces but never trimmed
(the source's per-token strip result is discarded), so a tab-carrying
token registers under the untrimmed key: with extensions
".py \t.pyi" the flattened dict maps ".py" and tab-".pyi" to the rule,
and no ".pyi" key exists. -/
theorem C9_eval :
    _config_to_dict
      [("r1", [("extensions", ".py \t.pyi"), ("command", "x"),
        ("regex", "(?P<file>a)")])] =
      .ok [("r1", .sec [("extensions", ".py \t.pyi"), ("command", "x"),
              ("regex", "(?P<file>a)")]),
           (".py", .names ["r1"]), ("\t.pyi", .names ["r1"])] := by
  rfl
